import Mathlib

/-!
Verification of the puzzle-solving engine of a color-sort puzzle solver bot.

The development shallowly embeds the engine's JavaScript modules:
* `Flask` (src/flask.js): one container of colored layers with fixed capacity;
* `Puzzle` (src/puzzle.js): an ordered collection of flasks;
* the solver module (src/solver.js): depth-first and priority-queue searches
  over the graph of puzzle states, and the driver `solve` that retries with
  an increasing number of auxiliary empty flasks.

Mutation in the JavaScript source is modelled by explicit state passing: an
operation that mutates an object returns the object's new value, paired with
an `Except String Unit` recording whether the call threw.  JavaScript `number`
indices may be negative, so index parameters of the `Puzzle` operations are
embedded as `Int`.
-/

/-- Modelled from the spec: the shared capacity constant
(src/constants/flask-capacity.const.js is not part of the provided sources).
The spec calls it a fixed system-wide constant `C` and all of its worked
examples use `C = 4`. -/
def FlaskCapacity : Nat := 4

/-- A flask: an ordered sequence of colored layers, bottom first
(field `_layers` of class `Flask`).  Colors are opaque small integers. -/
structure Flask where
  layers : List Nat
deriving DecidableEq, Repr, Inhabited

/-- `Flask` constructor: throws when given more layers than the capacity
allows, otherwise stores a copy of the given layers. -/
def Flask.ofLayers (layers : List Nat) : Except String Flask :=
  if layers.length > FlaskCapacity then
    .error "Cannot fill flask over its limit"
  else
    .ok ⟨layers⟩

/-- `Flask.copy`: an independent copy; under value semantics it carries the
same layers. -/
def Flask.copy (f : Flask) : Flask :=
  ⟨f.layers⟩

/-- `Flask.isEmpty`: the flask holds no layers. -/
def Flask.isEmpty (f : Flask) : Bool :=
  f.layers.length == 0

/-- `Flask.isFull`: the flask holds exactly `FlaskCapacity` layers. -/
def Flask.isFull (f : Flask) : Bool :=
  f.layers.length == FlaskCapacity

/-- `Flask.isInFinalState`: the flask is empty, or full with all layers of
the color of the bottom layer (`layers.every((layer) => layer === layers[0])`). -/
def Flask.isInFinalState (f : Flask) : Bool :=
  f.isEmpty || (f.isFull && f.layers.all (fun layer => layer == f.layers.headD 0))

/-- `Flask.toString`: the layers joined with commas (`layers.join(',')`). -/
def Flask.asString (f : Flask) : String :=
  String.intercalate "," (f.layers.map (fun layer => toString layer))

/-- `Flask.isTransfusionValid`: the static legality check for pouring from
`sourceFlask` into `destinationFlask`, with the source's early returns. -/
def Flask.isTransfusionValid (sourceFlask destinationFlask : Flask) : Bool :=
  if sourceFlask.isEmpty then
    false
  else if destinationFlask.isFull then
    false
  else if !destinationFlask.isEmpty &&
      sourceFlask.layers.getLast? != destinationFlask.layers.getLast? then
    false
  else
    true

/-- The `layersWithSameColor` loop of `Flask.transfuse`: the length of the
maximal run of layers equal to the top layer, counted downwards from the top. -/
def Flask.topRun (f : Flask) : Nat :=
  match f.layers.getLast? with
  | none => 0
  | some top => (f.layers.reverse.takeWhile (fun layer => layer == top)).length

/-- One `destinationFlask._layers.push(sourceFlask._layers.pop())` iteration,
repeated `n` times.  The `none` branch (popping an empty source) is
unreachable in the engine because the iteration count never exceeds the
source's length. -/
def popPushLoop : Nat → List Nat → List Nat → List Nat × List Nat
  | 0, src, dst => (src, dst)
  | n + 1, src, dst =>
    match src.getLast? with
    | some c => popPushLoop n src.dropLast (dst ++ [c])
    | none => popPushLoop n src dst

/-- `Flask.transfuse` on two distinct flask objects: throw when the
transfusion is invalid (before any mutation), otherwise move
`min(avaliableCapacity, layersWithSameColor)` layers one by one.  The result
is the thrown-or-not flag together with both flasks' contents after the call. -/
def Flask.transfuse (sourceFlask destinationFlask : Flask) :
    Except String Unit × Flask × Flask :=
  if !Flask.isTransfusionValid sourceFlask destinationFlask then
    (.error "Transfusion is invalid", sourceFlask, destinationFlask)
  else
    let avaliableCapacity := FlaskCapacity - destinationFlask.layers.length
    let layersWithSameColor := Flask.topRun sourceFlask
    let res := popPushLoop (min avaliableCapacity layersWithSameColor)
      sourceFlask.layers destinationFlask.layers
    (.ok (), ⟨res.1⟩, ⟨res.2⟩)

/-- The pop/push iteration of `Flask.transfuse` when source and destination
are the same JavaScript object (`Puzzle.transfuse(i, i)` passes
`this._flasks[i]` twice): each iteration pops the top layer and pushes it
back onto the same array. -/
def selfPopPushLoop : Nat → List Nat → List Nat
  | 0, l => l
  | n + 1, l =>
    match l.getLast? with
    | some c => selfPopPushLoop n (l.dropLast ++ [c])
    | none => selfPopPushLoop n l

/-- `Flask.transfuse` specialised to the aliased case where both arguments
are the same object: same validity check, same loop bound, but the loop acts
on one shared array. -/
def Flask.transfuseAliased (f : Flask) : Except String Unit × Flask :=
  if !Flask.isTransfusionValid f f then
    (.error "Transfusion is invalid", f)
  else
    let avaliableCapacity := FlaskCapacity - f.layers.length
    let layersWithSameColor := Flask.topRun f
    (.ok (), ⟨selfPopPushLoop (min avaliableCapacity layersWithSameColor) f.layers⟩)

/-- A puzzle: the ordered list of flasks (field `_flasks` of class `Puzzle`). -/
structure Puzzle where
  flasks : List Flask
deriving DecidableEq, Repr, Inhabited

/-- `Puzzle` constructor: builds one flask per row of the layers matrix;
a row longer than the capacity makes the construction throw. -/
def Puzzle.ofMatrix (layersMatrix : List (List Nat)) : Except String Puzzle :=
  (layersMatrix.mapM Flask.ofLayers).map Puzzle.mk

/-- `Puzzle.copy`: a deep copy; under value semantics it carries the same
layers matrix. -/
def Puzzle.copy (p : Puzzle) : Puzzle :=
  ⟨p.flasks.map (fun flask => ⟨flask.layers⟩)⟩

/-- `Puzzle.layersMatrix` getter. -/
def Puzzle.layersMatrix (p : Puzzle) : List (List Nat) :=
  p.flasks.map (fun flask => flask.layers)

/-- `Puzzle.isSolved`: no flask fails to be in final state. -/
def Puzzle.isSolved (p : Puzzle) : Bool :=
  !(p.flasks.any (fun flask => !flask.isInFinalState))

/-- `Puzzle.isTransfusionValid(i, j)`: throws when either index is outside
`[0, N)`, returns `false` for a self pour, otherwise delegates to
`Flask.isTransfusionValid`. -/
def Puzzle.isTransfusionValid (p : Puzzle) (sourceFlaskIndex destinationFlaskIndex : Int) :
    Except String Bool :=
  if sourceFlaskIndex < 0 || sourceFlaskIndex ≥ (p.flasks.length : Int) ||
      destinationFlaskIndex < 0 || destinationFlaskIndex ≥ (p.flasks.length : Int) then
    .error "flask index is out of bounds"
  else if sourceFlaskIndex == destinationFlaskIndex then
    .ok false
  else
    .ok (Flask.isTransfusionValid
      (p.flasks.getD sourceFlaskIndex.toNat default)
      (p.flasks.getD destinationFlaskIndex.toNat default))

/-- `Puzzle.transfuse(i, j)`: throws when either index is outside `[0, N)`,
otherwise delegates to `Flask.transfuse` on the two flask objects.  There is
no self-pour check here: when `i = j` the two arguments alias the same flask
object, which is the `Flask.transfuseAliased` behavior.  The result is the
thrown-or-not flag together with the puzzle's contents after the call. -/
def Puzzle.transfuse (p : Puzzle) (sourceFlaskIndex destinationFlaskIndex : Int) :
    Except String Unit × Puzzle :=
  if sourceFlaskIndex < 0 || sourceFlaskIndex ≥ (p.flasks.length : Int) ||
      destinationFlaskIndex < 0 || destinationFlaskIndex ≥ (p.flasks.length : Int) then
    (.error "flask index is out of bounds", p)
  else if sourceFlaskIndex == destinationFlaskIndex then
    let i := sourceFlaskIndex.toNat
    let (r, f') := Flask.transfuseAliased (p.flasks.getD i default)
    (r, ⟨p.flasks.set i f'⟩)
  else
    let i := sourceFlaskIndex.toNat
    let j := destinationFlaskIndex.toNat
    let (r, s', d') := Flask.transfuse (p.flasks.getD i default) (p.flasks.getD j default)
    (r, ⟨(p.flasks.set i s').set j d'⟩)

/-- `Puzzle.toStringWithSort`: every flask rendered as a string, the strings
sorted lexicographically (JavaScript's default `Array.sort` compares strings
by their code units, embedded as the lexicographic order on the strings'
character lists), joined with newlines. -/
def Puzzle.toStringWithSort (p : Puzzle) : String :=
  String.intercalate "\n"
    (List.insertionSort (fun a b => a.data ≤ b.data) (p.flasks.map Flask.asString))

/-- The inner loop of `calculateSolutionMetric` on one flask: counts indices
`i ≥ 1` with `layers[i] = layers[i-1]`. -/
def adjacentEqualPairs : List Nat → Nat
  | [] => 0
  | [_] => 0
  | a :: b :: rest => (if a == b then 1 else 0) + adjacentEqualPairs (b :: rest)

/-- `calculateSolutionMetric`: across all flasks, the number of adjacent
pairs of equal-color layers. -/
def calculateSolutionMetric (puzzle : Puzzle) : Nat :=
  puzzle.flasks.foldl (fun metric flask => metric + adjacentEqualPairs flask.layers) 0

/-- Swap of two positions of a list, used by the binary-heap bubble moves.
When either index is out of range the list is returned unchanged (the heap
only swaps in-range positions). -/
def listSwap (l : List α) (i j : Nat) : List α :=
  match l.get? i, l.get? j with
  | some a, some b => (l.set i b).set j a
  | _, _ => l

theorem listSwap_length (l : List α) (i j : Nat) : (listSwap l i j).length = l.length := by
  unfold listSwap
  rcases h₁ : l.get? i with _ | a <;> rcases h₂ : l.get? j with _ | b <;> simp

/-- The `while` loop of `_bubbleUp` of js-priority-queue's binary-heap
strategy: while the element at `pos` compares before its parent, swap them
and continue from the parent.  `counter` is a structural bound on the
remaining iterations: each iteration moves to the parent index
`(pos - 1) / 2 ≤ pos - 1`, so starting the counter at `pos` it never runs
out. -/
def bubbleUpGo [Inhabited τ] (cmp : τ → τ → Int) : Nat → List τ → Nat → List τ
  | 0, data, _ => data
  | counter + 1, data, pos =>
    if 0 < pos then
      let parent := (pos - 1) / 2
      if cmp (data.getD pos default) (data.getD parent default) < 0 then
        bubbleUpGo cmp counter (listSwap data pos parent) parent
      else
        data
    else
      data

/-- `_bubbleUp` of js-priority-queue's binary-heap strategy. -/
def bubbleUp [Inhabited τ] (cmp : τ → τ → Int) (data : List τ) (pos : Nat) : List τ :=
  bubbleUpGo cmp pos data pos

/-- The `minIndex` computation of one `_bubbleDown` iteration: the index of
the smaller of the children of `pos` when it compares before the element at
`pos`, else `pos` itself. -/
def bdMinIndex [Inhabited τ] (cmp : τ → τ → Int) (data : List τ) (pos : Nat) : Nat :=
  let last := data.length - 1
  let left := 2 * pos + 1
  let right := left + 1
  let m1 :=
    if left ≤ last ∧ cmp (data.getD left default) (data.getD pos default) < 0 then left
    else pos
  if right ≤ last ∧ cmp (data.getD right default) (data.getD m1 default) < 0 then right
  else m1

/-- The `while` loop of `_bubbleDown` of js-priority-queue's binary-heap
strategy: while some child compares before the element at `pos`, swap with
the smaller child and continue from there.  `counter` is a structural bound
on the remaining iterations: each iteration moves to a strictly larger
index bounded by `data.length - 1`, so starting the counter at
`data.length` it never runs out. -/
def bubbleDownGo [Inhabited τ] (cmp : τ → τ → Int) : Nat → List τ → Nat → List τ
  | 0, data, _ => data
  | counter + 1, data, pos =>
    if bdMinIndex cmp data pos = pos then
      data
    else
      bubbleDownGo cmp counter (listSwap data pos (bdMinIndex cmp data pos))
        (bdMinIndex cmp data pos)

/-- `_bubbleDown` of js-priority-queue's binary-heap strategy. -/
def bubbleDown [Inhabited τ] (cmp : τ → τ → Int) (data : List τ) (pos : Nat) : List τ :=
  bubbleDownGo cmp data.length data pos

/-- `_heapify`: bubble every element from index 1 upwards into place. -/
def heapify [Inhabited τ] (cmp : τ → τ → Int) (data : List τ) : List τ :=
  (List.range' 1 (data.length - 1)).foldl (fun d i => bubbleUp cmp d i) data

/-- `queue` of the binary-heap strategy: push at the end and bubble up. -/
def heapQueue [Inhabited τ] (cmp : τ → τ → Int) (data : List τ) (value : τ) : List τ :=
  bubbleUp cmp (data ++ [value]) ((data ++ [value]).length - 1)

/-- `dequeue` of the binary-heap strategy: return the root; pop the last
element, move it to the root and bubble it down when elements remain.
The source also skips the move when the popped element is the very object
being returned; with each queued step being a distinct object this only
happens when the heap had one element, where the emptiness check already
skips the move. -/
def heapDequeue [Inhabited τ] (cmp : τ → τ → Int) (data : List τ) :
    Option (τ × List τ) :=
  match data with
  | [] => none
  | ret :: _ =>
    let popped := data.dropLast
    let last := data.getLastD default
    if popped.length = 0 then
      some (ret, popped)
    else
      some (ret, bubbleDown cmp (popped.set 0 last) 0)

/-- The state fingerprint: the engine hashes `toStringWithSort` with MD5 and
stores hex digests in the visited set.  The digest is a deterministic
function of the canonical string and the engine treats equal digests as
equal states, so the embedding keeps the canonical string itself as the
fingerprint (the hash is modelled as injective, the engine's documented
approximation). -/
def fingerprint (puzzle : Puzzle) : String :=
  puzzle.toStringWithSort

/-- Result of one search run: a solution's move list, the frontier emptying
with no solution (the source function returning `undefined`), an exception
propagating out of the loop, or the embedding's fuel running out. -/
inductive SearchResult where
  | solution (transfusions : List (Nat × Nat))
  | noSolution
  | thrown (msg : String)
  | fuelOut
deriving DecidableEq, Repr

/-- The frontier-discipline parameters of `solveUsingPriorityQueueOrStack`:
a frontier of type `σ` holding steps of type `τ`, a filter state of type `φ`
(the priority discipline's closed-over `metricMap`), accessors for a step's
puzzle and move list, the stateful preliminary filter, and the constructor
of the next step. -/
structure SearchOps (σ φ τ : Type) where
  getStep : σ → Option (τ × σ)
  addStep : σ → τ → σ
  puzzle : τ → Puzzle
  transfusions : τ → List (Nat × Nat)
  preliminaryFilter : φ → τ → Bool × φ
  makeNextStep : τ → Puzzle → Nat × Nat → τ

/-- The ordered pairs `(i, j)` enumerated by the nested `for` loops of one
expansion: `i` outer ascending, `j` inner ascending, both over `[0, n)`. -/
def transfusionPairs (n : Nat) : List (Nat × Nat) :=
  (List.range n).flatMap (fun i => (List.range n).map (fun j => (i, j)))

/-- Outcome of running the nested pair loops of one expansion: either an
early exit of the whole search (solution found, or an exception), or the
updated visited set, frontier and filter state. -/
inductive PairsOutcome (σ φ : Type) where
  | done (res : SearchResult)
  | next (visited : List String) (frontier : σ) (fs : φ)

/-- The body of the nested `for` loops of `solveUsingPriorityQueueOrStack`,
run over the remaining pairs: skip invalid transfusions, transfuse a copy of
the step's puzzle, skip already-visited fingerprints, return immediately
when the next step's puzzle is solved, otherwise add the next step to the
frontier when it passes the preliminary filter. -/
def processPairs (ops : SearchOps σ φ τ) (step : τ) :
    List (Nat × Nat) → List String → σ → φ → PairsOutcome σ φ
  | [], visited, frontier, fs => .next visited frontier fs
  | (i, j) :: rest, visited, frontier, fs =>
    match (ops.puzzle step).isTransfusionValid (Int.ofNat i) (Int.ofNat j) with
    | .error msg => .done (.thrown msg)
    | .ok false => processPairs ops step rest visited frontier fs
    | .ok true =>
      match Puzzle.transfuse (Puzzle.copy (ops.puzzle step)) (Int.ofNat i) (Int.ofNat j) with
      | (.error msg, _) => .done (.thrown msg)
      | (.ok _, state) =>
        let nextFingerprint := fingerprint state
        if visited.contains nextFingerprint then
          processPairs ops step rest visited frontier fs
        else
          let visited' := nextFingerprint :: visited
          let nextStep := ops.makeNextStep step state (i, j)
          if (ops.puzzle nextStep).isSolved then
            .done (.solution (ops.transfusions nextStep))
          else
            match ops.preliminaryFilter fs nextStep with
            | (true, fs') => processPairs ops step rest visited' (ops.addStep frontier nextStep) fs'
            | (false, fs') => processPairs ops step rest visited' frontier fs'

/-- The `while` loop of `solveUsingPriorityQueueOrStack`: take a step from
the frontier (`getStep` returns `none` exactly when the `length > 0` loop
condition fails), discard it if it fails the preliminary filter, otherwise
expand it over all transfusion pairs.  `fuel` bounds the number of loop
iterations in the embedding. -/
def searchLoop (ops : SearchOps σ φ τ) : Nat → List String → σ → φ → SearchResult
  | 0, _, _, _ => .fuelOut
  | fuel + 1, visited, frontier, fs =>
    match ops.getStep frontier with
    | none => .noSolution
    | some (step, frontier') =>
      match ops.preliminaryFilter fs step with
      | (false, fs') => searchLoop ops fuel visited frontier' fs'
      | (true, fs') =>
        match processPairs ops step (transfusionPairs (ops.puzzle step).flasks.length)
            visited frontier' fs' with
        | .done res => res
        | .next visited' frontier'' fs'' => searchLoop ops fuel visited' frontier'' fs''

/-- A step of the stack (depth-first) discipline. -/
structure StackStep where
  puzzle : Puzzle
  transfusions : List (Nat × Nat)
deriving DecidableEq, Repr, Inhabited

/-- The stack discipline of `solveUsingStack`: a LIFO frontier (`pop`/`push`
on the end of a JavaScript array, modelled on the head of the list), a
filter that always passes with no state, and steps carrying no metric. -/
def stackOps : SearchOps (List StackStep) Unit StackStep where
  getStep := fun s =>
    match s with
    | [] => none
    | x :: xs => some (x, xs)
  addStep := fun s x => x :: s
  puzzle := StackStep.puzzle
  transfusions := StackStep.transfusions
  preliminaryFilter := fun fs _ => (true, fs)
  makeNextStep := fun step state transfusion =>
    ⟨state, step.transfusions ++ [transfusion]⟩

/-- `solveUsingStack`: run the shared loop with a stack holding the initial
step and a visited set seeded with the initial fingerprint. -/
def solveUsingStack (fuel : Nat) (puzzle : Puzzle) : SearchResult :=
  searchLoop stackOps fuel [fingerprint puzzle] [⟨puzzle, []⟩] ()

/-- A step of the priority-queue discipline. -/
structure PriorityQueueStep where
  puzzle : Puzzle
  metric : Nat
  transfusions : List (Nat × Nat)
deriving DecidableEq, Repr, Inhabited

/-- The comparator of `solveUsingPriorityQueue`: ascending by move count,
then descending by metric. -/
def pqComparator (a b : PriorityQueueStep) : Int :=
  if a.transfusions.length != b.transfusions.length then
    (a.transfusions.length : Int) - (b.transfusions.length : Int)
  else
    (b.metric : Int) - (a.metric : Int)

/-- `Map.set` of the `metricMap`: replace the value at an existing key,
else append the binding. -/
def metricMapSet (m : List (Nat × Nat)) (k v : Nat) : List (Nat × Nat) :=
  if (m.lookup k).isSome then
    m.map (fun kv => if kv.1 == k then (k, v) else kv)
  else
    m ++ [(k, v)]

/-- The preliminary filter of `solveUsingPriorityQueue`: a step is discarded
when the best metric recorded for its move count exceeds the step's metric
by more than `maxAllowedMetricDelta`; otherwise the step passes, and the
recorded best is raised to the step's metric when larger (or created). -/
def pqPreliminaryFilter (maxAllowedMetricDelta : Nat) (metricMap : List (Nat × Nat))
    (step : PriorityQueueStep) : Bool × List (Nat × Nat) :=
  match metricMap.lookup step.transfusions.length with
  | some maxMetric =>
    if maxMetric > step.metric + maxAllowedMetricDelta then
      (false, metricMap)
    else if maxMetric < step.metric then
      (true, metricMapSet metricMap step.transfusions.length step.metric)
    else
      (true, metricMap)
  | none => (true, metricMapSet metricMap step.transfusions.length step.metric)

/-- The priority-queue discipline of `solveUsingPriorityQueue`: a binary
heap ordered by `pqComparator`, the metric-map filter, and steps carrying
the metric of their puzzle. -/
def pqOps (maxAllowedMetricDelta : Nat) :
    SearchOps (List PriorityQueueStep) (List (Nat × Nat)) PriorityQueueStep where
  getStep := heapDequeue pqComparator
  addStep := heapQueue pqComparator
  puzzle := PriorityQueueStep.puzzle
  transfusions := PriorityQueueStep.transfusions
  preliminaryFilter := pqPreliminaryFilter maxAllowedMetricDelta
  makeNextStep := fun step state transfusion =>
    ⟨state, calculateSolutionMetric state, step.transfusions ++ [transfusion]⟩

/-- `solveUsingPriorityQueue`: run the shared loop with a heap holding the
initial step, an empty metric map and a visited set seeded with the initial
fingerprint. -/
def solveUsingPriorityQueue (fuel : Nat) (puzzle : Puzzle) (maxAllowedMetricDelta : Nat) :
    SearchResult :=
  searchLoop (pqOps maxAllowedMetricDelta) fuel [fingerprint puzzle]
    (heapify pqComparator [⟨puzzle, calculateSolutionMetric puzzle, []⟩]) []

/-- The `SolvingMethod` enumeration (src/constants/solving-method.const.js). -/
inductive SolvingMethod where
  | Fastest
  | Balanced
  | Shortest
deriving DecidableEq, Repr

/-- Result of the solve driver: the `[ solution, i ]` pair (with `solution`
absent when no count yielded one), a propagated exception, or fuel running
out. -/
inductive SolveResult where
  | result (solution : Option (List (Nat × Nat))) (emptyFlasksNumber : Nat)
  | thrown (msg : String)
  | fuelOut
deriving DecidableEq, Repr

/-- The `switch (solvingMethod)` statement of `solve`: `Shortest` searches
with the priority queue and metric delta 1, `Balanced` with the priority
queue and metric delta 0, and `Fastest` (also the `default` case) with the
stack. -/
def runMethod (fuel : Nat) (solvingMethod : SolvingMethod) (puzzle : Puzzle) : SearchResult :=
  match solvingMethod with
  | .Shortest => solveUsingPriorityQueue fuel puzzle 1
  | .Balanced => solveUsingPriorityQueue fuel puzzle 0
  | .Fastest => solveUsingStack fuel puzzle

/-- The `for` loop of `solve`, starting at empty-flask count `i`: extend the
matrix with `i` empty rows, run the selected search, stop on a solution (or
exception), otherwise retry with one more empty flask; past the bound,
return the absent solution together with the final counter value.
`counter` is a structural bound on the remaining iterations: the driver
starts it at `maxEmptyFlasksNumber + 1 - i`, and as `i` increases by one
per iteration the counter reaches `0` exactly when `i` exceeds the bound. -/
def solveLoop (fuel : Nat) (layersMatrix : List (List Nat)) (solvingMethod : SolvingMethod)
    (maxEmptyFlasksNumber : Nat) : Nat → Nat → SolveResult
  | 0, i => .result none i
  | counter + 1, i =>
    if i > maxEmptyFlasksNumber then
      .result none i
    else
      let layersMatrixWithEmptyFlasks := layersMatrix ++ List.replicate i []
      match Puzzle.ofMatrix layersMatrixWithEmptyFlasks with
      | .error msg => .thrown msg
      | .ok puzzle =>
        match runMethod fuel solvingMethod puzzle with
        | .solution transfusions => .result (some transfusions) i
        | .noSolution =>
          solveLoop fuel layersMatrix solvingMethod maxEmptyFlasksNumber counter (i + 1)
        | .thrown msg => .thrown msg
        | .fuelOut => .fuelOut

/-- Modelled from the spec: the driver's empty-flask bounds
(src/constants/default-empty-flasks-number.const.js and
src/constants/max-empty-flasks-number.const.js are not part of the provided
sources; the spec fixes no values, only "a minimum auxiliary-empty-container
count, up to a maximum bound"), so `solve` takes both bounds as parameters. -/
def solve (fuel : Nat) (layersMatrix : List (List Nat)) (solvingMethod : SolvingMethod)
    (defaultEmptyFlasksNumber maxEmptyFlasksNumber : Nat) : SolveResult :=
  solveLoop fuel layersMatrix solvingMethod maxEmptyFlasksNumber
    (maxEmptyFlasksNumber + 1 - defaultEmptyFlasksNumber) defaultEmptyFlasksNumber

/-! ### Basic lemmas about the container operations -/

theorem dropLast_append_of_getLast? {l : List Nat} {c : Nat} (h : l.getLast? = some c) :
    l.dropLast ++ [c] = l := by
  have hne : l ≠ [] := by
    rintro rfl
    simp at h
  have hc : c = l.getLast hne := by
    rw [List.getLast?_eq_getLast l hne] at h
    exact (Option.some_inj.mp h).symm
  rw [hc]
  exact List.dropLast_append_getLast hne

theorem selfPopPushLoop_eq (n : Nat) (l : List Nat) : selfPopPushLoop n l = l := by
  induction n generalizing l with
  | zero => rfl
  | succ n ih =>
    cases h : l.getLast? with
    | none => simp [selfPopPushLoop, h, ih]
    | some c =>
      simp only [selfPopPushLoop, h]
      rw [dropLast_append_of_getLast? h]
      exact ih l

theorem set_getD_self (l : List α) (n : Nat) (d : α) (h : n < l.length) :
    l.set n (l.getD n d) = l := by
  induction l generalizing n with
  | nil => simp at h
  | cons a t ih =>
    cases n with
    | zero => simp
    | succ m =>
      simp only [List.getD_cons_succ, List.set_cons_succ]
      rw [ih m (by simpa using h)]

theorem popPushLoop_spec (top : Nat) (n : Nat) (R dst : List Nat)
    (h : n ≤ (R.takeWhile (fun c => c == top)).length) :
    popPushLoop n R.reverse dst = ((R.drop n).reverse, dst ++ List.replicate n top) := by
  induction n generalizing R dst with
  | zero => simp [popPushLoop]
  | succ n ih =>
    match R with
    | [] => simp at h
    | c :: R' =>
      have hc : (c == top) = true := by
        by_contra hc'
        rw [List.takeWhile_cons] at h
        simp only [Bool.not_eq_true] at hc'
        rw [hc'] at h
        simp at h
      have h' : n ≤ (R'.takeWhile (fun c => c == top)).length := by
        rw [List.takeWhile_cons, hc] at h
        simpa using h
      have hceq : c = top := by simpa using hc
      rw [List.reverse_cons]
      simp only [popPushLoop, List.getLast?_concat, List.dropLast_concat]
      rw [ih R' (dst ++ [c]) h']
      simp [hceq, List.replicate_succ, List.append_assoc]

/-- On a legal pair of flasks, `Flask.transfuse` returns normally, removes
`min(free capacity, top run)` layers from the source's top and appends that
many copies of the source's top color to the destination. -/
theorem Flask.transfuse_spec (s d : Flask) (h : Flask.isTransfusionValid s d = true) :
    Flask.transfuse s d =
      (.ok (),
       ⟨s.layers.take (s.layers.length -
          min (FlaskCapacity - d.layers.length) (Flask.topRun s))⟩,
       ⟨d.layers ++ List.replicate
          (min (FlaskCapacity - d.layers.length) (Flask.topRun s))
          (s.layers.getLastD 0)⟩) := by
  have hs : s.layers ≠ [] := by
    intro hnil
    rw [Flask.isTransfusionValid] at h
    simp [Flask.isEmpty, hnil] at h
  obtain ⟨c, hc⟩ : ∃ c, s.layers.getLast? = some c := by
    cases hgl : s.layers.getLast? with
    | none => exact absurd (List.getLast?_eq_none_iff.mp hgl) hs
    | some c => exact ⟨c, rfl⟩
  have hrun : Flask.topRun s = (s.layers.reverse.takeWhile (fun layer => layer == c)).length := by
    rw [Flask.topRun, hc]
  have hlastD : s.layers.getLastD 0 = c := by
    rw [List.getLastD_eq_getLast?, hc]
    rfl
  have hbound : min (FlaskCapacity - d.layers.length) (Flask.topRun s) ≤
      (s.layers.reverse.takeWhile (fun layer => layer == c)).length := by
    rw [← hrun]
    exact Nat.min_le_right _ _
  have hloop := popPushLoop_spec c
    (min (FlaskCapacity - d.layers.length) (Flask.topRun s)) s.layers.reverse d.layers
    (by simpa using hbound)
  rw [List.reverse_reverse] at hloop
  rw [Flask.transfuse, h]
  simp only [Bool.not_true, Bool.false_eq_true, if_false]
  rw [hloop, hlastD, List.drop_reverse, List.reverse_reverse]

/-- Claim C4: on every legal pair of distinct flasks, `transfuse` moves
exactly `k = min(r, f)` layers from the source's top to the destination's
top, where `r` is the length of the maximal run of equal-color layers at the
source's top and `f = C − length(destination)` is the destination's free
capacity: the source keeps its first `length − k` layers and the
destination gains `k` copies of the source's top color. -/
theorem transfuse_moves_min_of_run_and_free (s d : Flask)
    (h : Flask.isTransfusionValid s d = true) :
    Flask.transfuse s d =
      (.ok (),
       ⟨s.layers.take (s.layers.length -
          min (Flask.topRun s) (FlaskCapacity - d.layers.length))⟩,
       ⟨d.layers ++ List.replicate
          (min (Flask.topRun s) (FlaskCapacity - d.layers.length))
          (s.layers.getLastD 0)⟩) := by
  rw [Nat.min_comm]
  exact Flask.transfuse_spec s d h

/-- Witness for C4, the spec's own example: source `[A,B,B]`, destination
`[B]` with `A = 0`, `B = 1` and `C = 4`: the run is 2, the free capacity 3,
and exactly 2 layers move, leaving `[A]` and `[B,B,B]`. -/
theorem transfuse_moves_min_of_run_and_free_witness :
    Flask.isTransfusionValid ⟨[0, 1, 1]⟩ ⟨[1]⟩ = true ∧
    Flask.topRun ⟨[0, 1, 1]⟩ = 2 ∧
    FlaskCapacity - (Flask.layers ⟨[1]⟩).length = 3 ∧
    Flask.transfuse ⟨[0, 1, 1]⟩ ⟨[1]⟩ = (.ok (), ⟨[0]⟩, ⟨[1, 1, 1]⟩) := by
  refine ⟨by decide, by decide, by decide, ?_⟩
  have := transfuse_moves_min_of_run_and_free ⟨[0, 1, 1]⟩ ⟨[1]⟩ (by decide)
  simpa using this

/-- Claim C10: `Flask.transfuse` is atomic on error: whenever
`isTransfusionValid` returns `false`, the call throws the
invalid-transfusion error and both flasks are exactly as they were before
the call (the validity check precedes any mutation). -/
theorem transfuse_invalid_throws_and_preserves (s d : Flask)
    (h : Flask.isTransfusionValid s d = false) :
    Flask.transfuse s d = (.error "Transfusion is invalid", s, d) := by
  rw [Flask.transfuse, h]
  simp

/-- Witness for C10: pouring `[0,1,1]` onto `[2]` is invalid (tops differ)
and leaves both flasks untouched. -/
theorem transfuse_invalid_throws_and_preserves_witness :
    Flask.isTransfusionValid ⟨[0, 1, 1]⟩ ⟨[2]⟩ = false ∧
    Flask.transfuse ⟨[0, 1, 1]⟩ ⟨[2]⟩ = (.error "Transfusion is invalid", ⟨[0, 1, 1]⟩, ⟨[2]⟩) :=
  ⟨by decide, transfuse_invalid_throws_and_preserves ⟨[0, 1, 1]⟩ ⟨[2]⟩ (by decide)⟩

/-- Claim C6: every flask satisfies `0 ≤ length ≤ C`: the constructor
throws on more than `C` layers and otherwise stores exactly the given
layers (no truncation), and `transfuse` preserves the bound for both flasks
involved (also in the aliased self-pour case), since it moves at most the
destination's free capacity. -/
theorem flask_capacity_invariant :
    (∀ layers : List Nat,
      ((∃ msg, Flask.ofLayers layers = .error msg) ↔ layers.length > FlaskCapacity) ∧
      (∀ f, Flask.ofLayers layers = .ok f → f.layers = layers)) ∧
    (∀ s d : Flask, ∀ r : Except String Unit, ∀ s' d' : Flask,
      s.layers.length ≤ FlaskCapacity → d.layers.length ≤ FlaskCapacity →
      Flask.transfuse s d = (r, s', d') →
      s'.layers.length ≤ FlaskCapacity ∧ d'.layers.length ≤ FlaskCapacity) ∧
    (∀ f : Flask, ∀ r : Except String Unit, ∀ f' : Flask,
      f.layers.length ≤ FlaskCapacity →
      Flask.transfuseAliased f = (r, f') → f'.layers.length ≤ FlaskCapacity) := by
  refine ⟨fun layers => ⟨⟨fun ⟨msg, hmsg⟩ => ?_, fun hgt => ?_⟩, fun f hf => ?_⟩,
    fun s d r s' d' hs hd htr => ?_, fun f r f' hf htr => ?_⟩
  · by_contra hle
    rw [Flask.ofLayers, if_neg hle] at hmsg
    exact Except.noConfusion hmsg
  · exact ⟨"Cannot fill flask over its limit", by rw [Flask.ofLayers, if_pos hgt]⟩
  · rw [Flask.ofLayers] at hf
    split at hf
    · exact Except.noConfusion hf
    · cases hf
      rfl
  · cases hvalid : Flask.isTransfusionValid s d with
    | false =>
      rw [transfuse_invalid_throws_and_preserves s d hvalid] at htr
      cases htr
      exact ⟨hs, hd⟩
    | true =>
      rw [Flask.transfuse_spec s d hvalid] at htr
      cases htr
      constructor
      · simpa using Nat.le_trans (Nat.sub_le _ _) hs
      · simp only [List.length_append, List.length_replicate]
        have : min (FlaskCapacity - d.layers.length) (Flask.topRun s) ≤
            FlaskCapacity - d.layers.length := Nat.min_le_left _ _
        omega
  · rw [Flask.transfuseAliased] at htr
    split at htr
    · cases htr
      exact hf
    · cases htr
      simpa [selfPopPushLoop_eq] using hf

/-- Witness for C6: the constructor rejects five layers and keeps three;
a legal transfusion from `[0,1,1]` to `[1]` and a self pour on `[0,1]` keep
both lengths within the capacity. -/
theorem flask_capacity_invariant_witness :
    ((∃ msg, Flask.ofLayers [0, 0, 0, 0, 0] = .error msg) ∧
      Flask.ofLayers [0, 1, 1] = .ok ⟨[0, 1, 1]⟩) ∧
    ((Flask.layers ⟨[0]⟩).length ≤ FlaskCapacity ∧
      (Flask.layers ⟨[1, 1, 1]⟩).length ≤ FlaskCapacity) ∧
    (Flask.layers ⟨[0, 1]⟩).length ≤ FlaskCapacity := by
  refine ⟨⟨(flask_capacity_invariant.1 [0, 0, 0, 0, 0]).1.mpr (by decide), rfl⟩, ?_, ?_⟩
  · exact (flask_capacity_invariant.2.1 ⟨[0, 1, 1]⟩ ⟨[1]⟩ (.ok ()) ⟨[0]⟩ ⟨[1, 1, 1]⟩
      (by decide) (by decide) rfl)
  · exact (flask_capacity_invariant.2.2 ⟨[0, 1]⟩ (.ok ()) ⟨[0, 1]⟩ (by decide) rfl)

theorem isTransfusionValid_self_true (f : Flask) (h0 : 0 < f.layers.length)
    (h1 : f.layers.length < FlaskCapacity) : Flask.isTransfusionValid f f = true := by
  have he : f.isEmpty = false := by
    simp only [Flask.isEmpty, beq_eq_false_iff_ne, ne_eq]
    omega
  have hf : f.isFull = false := by
    simp only [Flask.isFull, beq_eq_false_iff_ne, ne_eq]
    omega
  rw [Flask.isTransfusionValid]
  simp [he, hf]

theorem isTransfusionValid_self_false (f : Flask)
    (h : f.layers.length = 0 ∨ f.layers.length = FlaskCapacity) :
    Flask.isTransfusionValid f f = false := by
  rw [Flask.isTransfusionValid]
  rcases h with h | h
  · simp [Flask.isEmpty, h]
  · have he : f.isEmpty = false := by
      simp only [Flask.isEmpty, beq_eq_false_iff_ne, ne_eq]
      rw [h]
      decide
    simp [he, Flask.isFull, h]

theorem transfuseAliased_valid (f : Flask) (h : Flask.isTransfusionValid f f = true) :
    Flask.transfuseAliased f = (.ok (), f) := by
  rw [Flask.transfuseAliased, h]
  simp [selfPopPushLoop_eq]

theorem transfuseAliased_invalid (f : Flask) (h : Flask.isTransfusionValid f f = false) :
    Flask.transfuseAliased f = (.error "Transfusion is invalid", f) := by
  rw [Flask.transfuseAliased, h]
  simp

/-- Counterexample to claim C3: a self pour on an empty container does not
return normally: `transfuse(0, 0)` on the one-empty-flask layout throws the
invalid-transfusion error (the puzzle is left unchanged). -/
theorem transfuse_self_empty_throws :
    Puzzle.transfuse ⟨[⟨[]⟩]⟩ 0 0 = (.error "Transfusion is invalid", ⟨[⟨[]⟩]⟩) := rfl

/-- Claim C3 (amended): for an in-range index `i`, `transfuse(i, i)` leaves
the layout unchanged in every case; it returns normally when the container
at `i` is partially filled (neither empty nor full), and throws the
invalid-transfusion error when the container is empty or full (because the
source checks `Flask.isTransfusionValid` on the aliased pair instead of
special-casing the self pour). -/
theorem transfuse_self_behavior (p : Puzzle) (i : Int) (h0 : 0 ≤ i)
    (h1 : i < (p.flasks.length : Int)) :
    (0 < (p.flasks.getD i.toNat default).layers.length →
      (p.flasks.getD i.toNat default).layers.length < FlaskCapacity →
      Puzzle.transfuse p i i = (.ok (), p)) ∧
    (((p.flasks.getD i.toNat default).layers.length = 0 ∨
        (p.flasks.getD i.toNat default).layers.length = FlaskCapacity) →
      Puzzle.transfuse p i i = (.error "Transfusion is invalid", p)) := by
  have hset : p.flasks.set i.toNat (p.flasks.getD i.toNat default) = p.flasks :=
    set_getD_self _ _ _ (by omega)
  constructor
  · intro hpos hlt
    rw [Puzzle.transfuse]
    rw [if_neg (by simp only [Bool.or_eq_true, decide_eq_true_eq]; omega)]
    rw [if_pos (by simp)]
    dsimp only
    rw [transfuseAliased_valid _ (isTransfusionValid_self_true _ hpos hlt)]
    rw [hset]
  · intro hext
    rw [Puzzle.transfuse]
    rw [if_neg (by simp only [Bool.or_eq_true, decide_eq_true_eq]; omega)]
    rw [if_pos (by simp)]
    dsimp only
    rw [transfuseAliased_invalid _ (isTransfusionValid_self_false _ hext)]
    rw [hset]

/-- Witness for the amended C3: on the layout `[[0,1], []]`, the self pour
at index 0 (partially filled) is a silent no-op, and the self pour at index
1 (empty) throws. -/
theorem transfuse_self_behavior_witness :
    Puzzle.transfuse ⟨[⟨[0, 1]⟩, ⟨[]⟩]⟩ 0 0 = (.ok (), ⟨[⟨[0, 1]⟩, ⟨[]⟩]⟩) ∧
    Puzzle.transfuse ⟨[⟨[0, 1]⟩, ⟨[]⟩]⟩ 1 1 =
      (.error "Transfusion is invalid", ⟨[⟨[0, 1]⟩, ⟨[]⟩]⟩) :=
  ⟨(transfuse_self_behavior ⟨[⟨[0, 1]⟩, ⟨[]⟩]⟩ 0 (by decide) (by decide)).1
      (by decide) (by decide),
   (transfuse_self_behavior ⟨[⟨[0, 1]⟩, ⟨[]⟩]⟩ 1 (by decide) (by decide)).2
      (by decide)⟩

theorem Flask.isTransfusionValid_iff (s d : Flask) :
    Flask.isTransfusionValid s d = true ↔
      (s.layers ≠ [] ∧ d.layers.length ≠ FlaskCapacity ∧
        (d.layers = [] ∨ d.layers.getLast? = s.layers.getLast?)) := by
  rw [Flask.isTransfusionValid]
  split_ifs with h1 h2 h3
  · simp only [Bool.false_eq_true, false_iff, not_and]
    intro hne
    exact absurd (by simpa [Flask.isEmpty, List.length_eq_zero] using h1) hne
  · simp only [Bool.false_eq_true, false_iff, not_and]
    intro _ hnf
    exact absurd (by simpa [Flask.isFull] using h2) hnf
  · simp only [Bool.and_eq_true, Bool.not_eq_true', bne_iff_ne, ne_eq] at h3
    simp only [Bool.false_eq_true, false_iff, not_and]
    intro _ _ hor
    rcases hor with hd | hd
    · rw [← List.length_eq_zero] at hd
      simp [Flask.isEmpty, hd] at h3
    · exact h3.2 (hd ▸ rfl)
  · simp only [Bool.and_eq_true, Bool.not_eq_true', bne_iff_ne, ne_eq, not_and, not_not] at h3
    simp only [true_iff]
    refine ⟨by simpa [Flask.isEmpty, List.length_eq_zero] using h1,
      by simpa [Flask.isFull] using h2, ?_⟩
    by_cases hde : d.isEmpty = true
    · exact Or.inl (by simpa [Flask.isEmpty, List.length_eq_zero] using hde)
    · exact Or.inr ((h3 (by simpa using hde)).symm)

/-- Claim C5: `Layout.isTransfusionValid(i, j)` raises the out-of-range
error exactly when `i` or `j` lies outside `[0, N)`; for in-range indices it
returns `false` when `i = j`, and otherwise returns `true` exactly when the
source is non-empty, the destination is not full, and the destination is
empty or its top color equals the source's top color. -/
theorem isTransfusionValid_bounds_and_rule (p : Puzzle) (i j : Int) :
    ((∃ msg, Puzzle.isTransfusionValid p i j = .error msg) ↔
      (i < 0 ∨ (p.flasks.length : Int) ≤ i ∨ j < 0 ∨ (p.flasks.length : Int) ≤ j)) ∧
    (0 ≤ i → i < (p.flasks.length : Int) → 0 ≤ j → j < (p.flasks.length : Int) →
      (i = j → Puzzle.isTransfusionValid p i j = .ok false) ∧
      (i ≠ j → (Puzzle.isTransfusionValid p i j = .ok true ↔
        ((p.flasks.getD i.toNat default).layers ≠ [] ∧
         (p.flasks.getD j.toNat default).layers.length ≠ FlaskCapacity ∧
         ((p.flasks.getD j.toNat default).layers = [] ∨
          (p.flasks.getD j.toNat default).layers.getLast? =
            (p.flasks.getD i.toNat default).layers.getLast?))))) := by
  constructor
  · by_cases hb : i < 0 ∨ (p.flasks.length : Int) ≤ i ∨ j < 0 ∨ (p.flasks.length : Int) ≤ j
    · refine ⟨fun _ => hb, fun _ => ⟨"flask index is out of bounds", ?_⟩⟩
      rw [Puzzle.isTransfusionValid]
      rw [if_pos (by simp only [Bool.or_eq_true, decide_eq_true_eq]; omega)]
    · refine ⟨fun ⟨msg, hmsg⟩ => ?_, fun h => absurd h hb⟩
      rw [Puzzle.isTransfusionValid,
        if_neg (by simp only [Bool.or_eq_true, decide_eq_true_eq]; omega)] at hmsg
      split at hmsg <;> exact Except.noConfusion hmsg
  · intro hi0 hi1 hj0 hj1
    constructor
    · rintro rfl
      rw [Puzzle.isTransfusionValid,
        if_neg (by simp only [Bool.or_eq_true, decide_eq_true_eq]; omega)]
      rw [if_pos (by simp)]
    · intro hne
      rw [Puzzle.isTransfusionValid,
        if_neg (by simp only [Bool.or_eq_true, decide_eq_true_eq]; omega)]
      rw [if_neg (by simpa using hne)]
      rw [← Flask.isTransfusionValid_iff]
      constructor
      · intro h
        exact (Except.ok.injEq _ _).mp h
      · intro h
        rw [h]

/-- Witness for C5: on the two-flask layout `[[0,1], []]`, index 2 is
rejected with an error, the self pour at 0 yields `false`, and the pour
from 0 to the empty flask 1 is valid. -/
theorem isTransfusionValid_bounds_and_rule_witness :
    (∃ msg, Puzzle.isTransfusionValid ⟨[⟨[0, 1]⟩, ⟨[]⟩]⟩ 0 2 = .error msg) ∧
    Puzzle.isTransfusionValid ⟨[⟨[0, 1]⟩, ⟨[]⟩]⟩ 0 0 = .ok false ∧
    Puzzle.isTransfusionValid ⟨[⟨[0, 1]⟩, ⟨[]⟩]⟩ 0 1 = .ok true := by
  refine ⟨(isTransfusionValid_bounds_and_rule ⟨[⟨[0, 1]⟩, ⟨[]⟩]⟩ 0 2).1.mpr (by decide), ?_, ?_⟩
  · exact ((isTransfusionValid_bounds_and_rule ⟨[⟨[0, 1]⟩, ⟨[]⟩]⟩ 0 0).2
      (by decide) (by decide) (by decide) (by decide)).1 rfl
  · exact ((isTransfusionValid_bounds_and_rule ⟨[⟨[0, 1]⟩, ⟨[]⟩]⟩ 0 1).2
      (by decide) (by decide) (by decide) (by decide)).2 (by decide) |>.mpr
      (by refine ⟨by decide, by decide, Or.inl rfl⟩)

/-! ### Fingerprint order-independence -/

theorem strOrder_total (a b : String) : a.data ≤ b.data ∨ b.data ≤ a.data :=
  le_total a.data b.data

theorem strOrder_trans (a b c : String) (h1 : a.data ≤ b.data) (h2 : b.data ≤ c.data) :
    a.data ≤ c.data :=
  le_trans h1 h2

theorem strOrder_antisymm (a b : String) (h1 : a.data ≤ b.data) (h2 : b.data ≤ a.data) :
    a = b :=
  String.ext (le_antisymm h1 h2)

/-- Claim C8: the canonical sorted string form of a Layout (and hence its
digest, a deterministic function of it) is invariant under every
permutation of the Layout's container list. -/
theorem toStringWithSort_perm_invariant (flasks₁ flasks₂ : List Flask)
    (h : flasks₁.Perm flasks₂) :
    Puzzle.toStringWithSort ⟨flasks₁⟩ = Puzzle.toStringWithSort ⟨flasks₂⟩ := by
  rw [Puzzle.toStringWithSort, Puzzle.toStringWithSort]
  have hmap : (flasks₁.map Flask.asString).Perm (flasks₂.map Flask.asString) :=
    h.map Flask.asString
  haveI htot : IsTotal String (fun a b => a.data ≤ b.data) := ⟨strOrder_total⟩
  haveI htrans : IsTrans String (fun a b => a.data ≤ b.data) := ⟨strOrder_trans⟩
  haveI hanti : IsAntisymm String (fun a b => a.data ≤ b.data) := ⟨strOrder_antisymm⟩
  congr 1
  refine List.eq_of_perm_of_sorted ?_
    (List.sorted_insertionSort _ _) (List.sorted_insertionSort _ _)
  exact ((List.perm_insertionSort _ _).trans hmap).trans
    (List.perm_insertionSort _ _).symm

/-- Witness for C8: swapping the two flasks of `[[0,1,0,1],[1,0,1,0]]`
leaves the canonical string unchanged. -/
theorem toStringWithSort_perm_invariant_witness :
    Puzzle.toStringWithSort ⟨[⟨[0, 1, 0, 1]⟩, ⟨[1, 0, 1, 0]⟩]⟩ =
      Puzzle.toStringWithSort ⟨[⟨[1, 0, 1, 0]⟩, ⟨[0, 1, 0, 1]⟩]⟩ :=
  toStringWithSort_perm_invariant _ _ (List.Perm.swap _ _ _)

/-! ### Method dispatch -/

/-- Counterexample to claim C2: the spec's mapping of methods to metric
tolerances is swapped relative to the code.  On the puzzle
`[[0,1,1,0],[1,0,0,1],[],[]]` the priority-queue searches with tolerance 0
and tolerance 1 return different move lists, and `Shortest` runs the
tolerance-1 search (not tolerance 0) while `Balanced` runs the tolerance-0
search (not tolerance 1). -/
theorem runMethod_tolerances_counterexample :
    runMethod 18 SolvingMethod.Shortest ⟨[⟨[0, 1, 1, 0]⟩, ⟨[1, 0, 0, 1]⟩, ⟨[]⟩, ⟨[]⟩]⟩ ≠
      solveUsingPriorityQueue 18 ⟨[⟨[0, 1, 1, 0]⟩, ⟨[1, 0, 0, 1]⟩, ⟨[]⟩, ⟨[]⟩]⟩ 0 ∧
    runMethod 18 SolvingMethod.Balanced ⟨[⟨[0, 1, 1, 0]⟩, ⟨[1, 0, 0, 1]⟩, ⟨[]⟩, ⟨[]⟩]⟩ ≠
      solveUsingPriorityQueue 18 ⟨[⟨[0, 1, 1, 0]⟩, ⟨[1, 0, 0, 1]⟩, ⟨[]⟩, ⟨[]⟩]⟩ 1 := by
  constructor <;> decide

/-- Claim C2 (amended): `solve` dispatches `"fastest"` to the depth-first
stack search, `"shortest"` to the priority-queue search with metric
tolerance 1, and `"balanced"` to the priority-queue search with metric
tolerance 0 (the spec's shortest/balanced tolerances are swapped relative
to the code). -/
theorem runMethod_dispatch (fuel : Nat) (puzzle : Puzzle) :
    runMethod fuel SolvingMethod.Fastest puzzle = solveUsingStack fuel puzzle ∧
    runMethod fuel SolvingMethod.Shortest puzzle = solveUsingPriorityQueue fuel puzzle 1 ∧
    runMethod fuel SolvingMethod.Balanced puzzle = solveUsingPriorityQueue fuel puzzle 0 :=
  ⟨rfl, rfl, rfl⟩

/-! ### End-to-end solution validity -/

/-- Replaying a move list in order via `Puzzle.transfuse`, propagating any
thrown error. -/
def Puzzle.replay (p : Puzzle) : List (Nat × Nat) → Except String Puzzle
  | [] => .ok p
  | (i, j) :: rest =>
    match Puzzle.transfuse p (Int.ofNat i) (Int.ofNat j) with
    | (.ok _, p') => Puzzle.replay p' rest
    | (.error msg, _) => .error msg

theorem Puzzle.copy_eq (p : Puzzle) : Puzzle.copy p = p := by
  cases p with
  | mk flasks =>
    show Puzzle.mk (flasks.map (fun flask => ⟨flask.layers⟩)) = ⟨flasks⟩
    rw [show (fun (flask : Flask) => (⟨flask.layers⟩ : Flask)) = id from rfl, List.map_id]

theorem Puzzle.replay_append (p : Puzzle) (l₁ l₂ : List (Nat × Nat)) :
    Puzzle.replay p (l₁ ++ l₂) =
      match Puzzle.replay p l₁ with
      | .ok q => Puzzle.replay q l₂
      | .error msg => .error msg := by
  induction l₁ generalizing p with
  | nil => rfl
  | cons hd tl ih =>
    obtain ⟨i, j⟩ := hd
    rcases htr : Puzzle.transfuse p (Int.ofNat i) (Int.ofNat j) with ⟨r, p'⟩
    cases r with
    | ok u =>
      simp only [List.cons_append, Puzzle.replay, htr]
      exact ih p'
    | error msg => simp only [List.cons_append, Puzzle.replay, htr]

theorem replay_snoc_ok (p₀ q state : Puzzle) (ts : List (Nat × Nat)) (i j : Nat) (u : Unit)
    (hgood : Puzzle.replay p₀ ts = .ok q)
    (htr : Puzzle.transfuse q (Int.ofNat i) (Int.ofNat j) = (.ok u, state)) :
    Puzzle.replay p₀ (ts ++ [(i, j)]) = .ok state := by
  rw [Puzzle.replay_append, hgood]
  show Puzzle.replay q [(i, j)] = .ok state
  simp only [Puzzle.replay, htr]

/-- The frontier laws that both disciplines satisfy, stated over a `steps`
projection giving the frontier's contents: a removed step was a member and
removal only discards; insertion adds at most the new step; the constructed
next step carries the given puzzle and the extended move list. -/
structure SearchOpsLaws (ops : SearchOps σ φ τ) (steps : σ → List τ) : Prop where
  getStep_mem : ∀ frontier step frontier',
    ops.getStep frontier = some (step, frontier') →
    step ∈ steps frontier ∧ ∀ x ∈ steps frontier', x ∈ steps frontier
  addStep_mem : ∀ frontier step x,
    x ∈ steps (ops.addStep frontier step) → x = step ∨ x ∈ steps frontier
  puzzle_makeNextStep : ∀ step state transfusion,
    ops.puzzle (ops.makeNextStep step state transfusion) = state
  transfusions_makeNextStep : ∀ step state transfusion,
    ops.transfusions (ops.makeNextStep step state transfusion) =
      ops.transfusions step ++ [transfusion]

theorem processPairs_sound (ops : SearchOps σ φ τ) (steps : σ → List τ)
    (laws : SearchOpsLaws ops steps) (p₀ : Puzzle) (step : τ)
    (hstep : Puzzle.replay p₀ (ops.transfusions step) = .ok (ops.puzzle step)) :
    ∀ (pairs : List (Nat × Nat)) (visited : List String) (frontier : σ) (fs : φ),
      (∀ s ∈ steps frontier, Puzzle.replay p₀ (ops.transfusions s) = .ok (ops.puzzle s)) →
      (∀ moves, processPairs ops step pairs visited frontier fs = .done (.solution moves) →
        ∃ p', Puzzle.replay p₀ moves = .ok p' ∧ p'.isSolved = true) ∧
      (∀ visited' frontier' fs',
        processPairs ops step pairs visited frontier fs = .next visited' frontier' fs' →
        ∀ s ∈ steps frontier', Puzzle.replay p₀ (ops.transfusions s) = .ok (ops.puzzle s)) := by
  intro pairs
  induction pairs with
  | nil =>
    intro visited frontier fs hfront
    constructor
    · intro moves h
      simp only [processPairs] at h
      exact PairsOutcome.noConfusion h
    · intro visited' frontier' fs' h
      simp only [processPairs, PairsOutcome.next.injEq] at h
      obtain ⟨-, rfl, -⟩ := h
      exact hfront
  | cons hd rest ih =>
    obtain ⟨i, j⟩ := hd
    intro visited frontier fs hfront
    cases hval : (ops.puzzle step).isTransfusionValid (Int.ofNat i) (Int.ofNat j) with
    | error msg =>
      constructor
      · intro moves h
        simp only [processPairs, hval] at h
        rw [PairsOutcome.done.injEq] at h
        exact SearchResult.noConfusion h
      · intro visited' frontier' fs' h
        simp only [processPairs, hval] at h
        exact PairsOutcome.noConfusion h
    | ok b =>
      cases b with
      | false =>
        have hrec := ih visited frontier fs hfront
        constructor
        · intro moves h
          simp only [processPairs, hval] at h
          exact hrec.1 moves h
        · intro visited' frontier' fs' h
          simp only [processPairs, hval] at h
          exact hrec.2 visited' frontier' fs' h
      | true =>
        rcases htr : Puzzle.transfuse (Puzzle.copy (ops.puzzle step))
            (Int.ofNat i) (Int.ofNat j) with ⟨r, state⟩
        cases r with
        | error msg =>
          constructor
          · intro moves h
            simp only [processPairs, hval, htr] at h
            rw [PairsOutcome.done.injEq] at h
            exact SearchResult.noConfusion h
          · intro visited' frontier' fs' h
            simp only [processPairs, hval, htr] at h
            exact PairsOutcome.noConfusion h
        | ok u =>
          have hgood' : Puzzle.replay p₀ (ops.transfusions step ++ [(i, j)]) = .ok state :=
            replay_snoc_ok p₀ (ops.puzzle step) state (ops.transfusions step) i j u hstep
              (by rw [Puzzle.copy_eq] at htr; exact htr)
          cases hvis : visited.contains (fingerprint state) with
          | true =>
            have hrec := ih visited frontier fs hfront
            constructor
            · intro moves h
              simp only [processPairs, hval, htr, hvis, Bool.false_eq_true, Bool.true_eq_false, eq_self_iff_true, if_true, if_false] at h
              exact hrec.1 moves h
            · intro visited' frontier' fs' h
              simp only [processPairs, hval, htr, hvis, Bool.false_eq_true, Bool.true_eq_false, eq_self_iff_true, if_true, if_false] at h
              exact hrec.2 visited' frontier' fs' h
          | false =>
            cases hsol : (ops.puzzle (ops.makeNextStep step state (i, j))).isSolved with
            | true =>
              constructor
              · intro moves h
                simp only [processPairs, hval, htr, hvis, Bool.false_eq_true, Bool.true_eq_false, eq_self_iff_true, if_true, if_false, hsol, PairsOutcome.done.injEq,
                  SearchResult.solution.injEq] at h
                refine ⟨state, ?_, ?_⟩
                · rw [← h, laws.transfusions_makeNextStep step state (i, j)]
                  exact hgood'
                · rw [← laws.puzzle_makeNextStep step state (i, j)]
                  exact hsol
              · intro visited' frontier' fs' h
                simp only [processPairs, hval, htr, hvis, Bool.false_eq_true, Bool.true_eq_false, eq_self_iff_true, if_true, if_false, hsol] at h
                exact PairsOutcome.noConfusion h
            | false =>
              rcases hfil : ops.preliminaryFilter fs (ops.makeNextStep step state (i, j))
                  with ⟨keep, fs₂⟩
              have hnextGood : Puzzle.replay p₀
                  (ops.transfusions (ops.makeNextStep step state (i, j))) =
                  .ok (ops.puzzle (ops.makeNextStep step state (i, j))) := by
                rw [laws.transfusions_makeNextStep step state (i, j),
                  laws.puzzle_makeNextStep step state (i, j)]
                exact hgood'
              cases keep with
              | true =>
                have hfront₂ : ∀ s ∈ steps (ops.addStep frontier (ops.makeNextStep step state (i, j))),
                    Puzzle.replay p₀ (ops.transfusions s) = .ok (ops.puzzle s) := by
                  intro s hs
                  rcases laws.addStep_mem frontier (ops.makeNextStep step state (i, j)) s hs
                      with rfl | hs'
                  · exact hnextGood
                  · exact hfront s hs'
                have hrec := ih (fingerprint state :: visited)
                  (ops.addStep frontier (ops.makeNextStep step state (i, j))) fs₂ hfront₂
                constructor
                · intro moves h
                  simp only [processPairs, hval, htr, hvis, Bool.false_eq_true, Bool.true_eq_false, eq_self_iff_true, if_true, if_false, hsol, hfil] at h
                  exact hrec.1 moves h
                · intro visited' frontier' fs' h
                  simp only [processPairs, hval, htr, hvis, Bool.false_eq_true, Bool.true_eq_false, eq_self_iff_true, if_true, if_false, hsol, hfil] at h
                  exact hrec.2 visited' frontier' fs' h
              | false =>
                have hrec := ih (fingerprint state :: visited) frontier fs₂ hfront
                constructor
                · intro moves h
                  simp only [processPairs, hval, htr, hvis, Bool.false_eq_true, Bool.true_eq_false, eq_self_iff_true, if_true, if_false, hsol, hfil] at h
                  exact hrec.1 moves h
                · intro visited' frontier' fs' h
                  simp only [processPairs, hval, htr, hvis, Bool.false_eq_true, Bool.true_eq_false, eq_self_iff_true, if_true, if_false, hsol, hfil] at h
                  exact hrec.2 visited' frontier' fs' h

theorem searchLoop_sound (ops : SearchOps σ φ τ) (steps : σ → List τ)
    (laws : SearchOpsLaws ops steps) (p₀ : Puzzle) :
    ∀ (fuel : Nat) (visited : List String) (frontier : σ) (fs : φ) (moves : List (Nat × Nat)),
      (∀ s ∈ steps frontier, Puzzle.replay p₀ (ops.transfusions s) = .ok (ops.puzzle s)) →
      searchLoop ops fuel visited frontier fs = .solution moves →
      ∃ p', Puzzle.replay p₀ moves = .ok p' ∧ p'.isSolved = true := by
  intro fuel
  induction fuel with
  | zero =>
    intro visited frontier fs moves hfront h
    simp only [searchLoop] at h
    exact SearchResult.noConfusion h
  | succ fuel ih =>
    intro visited frontier fs moves hfront h
    rcases hget : ops.getStep frontier with - | ⟨step, frontier'⟩
    · simp only [searchLoop, hget] at h
      exact SearchResult.noConfusion h
    · have hmem := laws.getStep_mem frontier step frontier' hget
      have hstep := hfront step hmem.1
      have hfront' : ∀ s ∈ steps frontier',
          Puzzle.replay p₀ (ops.transfusions s) = .ok (ops.puzzle s) :=
        fun s hs => hfront s (hmem.2 s hs)
      rcases hfil : ops.preliminaryFilter fs step with ⟨keep, fs'⟩
      cases keep with
      | false =>
        simp only [searchLoop, hget, hfil] at h
        exact ih visited frontier' fs' moves hfront' h
      | true =>
        rcases hpp : processPairs ops step
            (transfusionPairs (ops.puzzle step).flasks.length) visited frontier' fs'
            with res | ⟨visited₂, frontier₂, fs₂⟩
        · simp only [searchLoop, hget, hfil, hpp] at h
          subst h
          exact (processPairs_sound ops steps laws p₀ step hstep _ visited frontier' fs'
            hfront').1 moves hpp
        · simp only [searchLoop, hget, hfil, hpp] at h
          have hfront₂ := (processPairs_sound ops steps laws p₀ step hstep _ visited
            frontier' fs' hfront').2 visited₂ frontier₂ fs₂ hpp
          exact ih visited₂ frontier₂ fs₂ moves hfront₂ h

theorem stackOps_laws : SearchOpsLaws stackOps (fun s => s) := by
  constructor
  · intro frontier step frontier' h
    cases frontier with
    | nil => simp [stackOps] at h
    | cons x xs =>
      simp only [stackOps, Option.some.injEq, Prod.mk.injEq] at h
      obtain ⟨rfl, rfl⟩ := h
      exact ⟨List.mem_cons_self _ _, fun y hy => List.mem_cons_of_mem _ hy⟩
  · intro frontier step x h
    exact List.mem_cons.mp h
  · intro step state transfusion
    rfl
  · intro step state transfusion
    rfl

theorem mem_listSwap {l : List α} {i j : Nat} {x : α} (h : x ∈ listSwap l i j) : x ∈ l := by
  rw [listSwap] at h
  rcases h₁ : l.get? i with - | a <;> rcases h₂ : l.get? j with - | b <;>
    rw [h₁, h₂] at h
  · exact h
  · exact h
  · exact h
  · rcases List.mem_or_eq_of_mem_set h with h' | rfl
    · rcases List.mem_or_eq_of_mem_set h' with h'' | rfl
      · exact h''
      · exact List.get?_mem h₂
    · exact List.get?_mem h₁

theorem mem_bubbleUpGo [Inhabited τ] (cmp : τ → τ → Int) :
    ∀ (counter : Nat) (data : List τ) (pos : Nat) (x : τ),
      x ∈ bubbleUpGo cmp counter data pos → x ∈ data := by
  intro counter
  induction counter with
  | zero =>
    intro data pos x h
    simpa [bubbleUpGo] using h
  | succ n ih =>
    intro data pos x h
    simp only [bubbleUpGo] at h
    split_ifs at h
    · exact mem_listSwap (ih _ _ x h)
    · exact h
    · exact h

theorem mem_bubbleDownGo [Inhabited τ] (cmp : τ → τ → Int) :
    ∀ (counter : Nat) (data : List τ) (pos : Nat) (x : τ),
      x ∈ bubbleDownGo cmp counter data pos → x ∈ data := by
  intro counter
  induction counter with
  | zero =>
    intro data pos x h
    simpa [bubbleDownGo] using h
  | succ n ih =>
    intro data pos x h
    simp only [bubbleDownGo] at h
    split_ifs at h
    · exact h
    · exact mem_listSwap (ih _ _ x h)

theorem heapDequeue_mem [Inhabited τ] (cmp : τ → τ → Int) (data : List τ) (step : τ)
    (rest : List τ) (h : heapDequeue cmp data = some (step, rest)) :
    step ∈ data ∧ ∀ x ∈ rest, x ∈ data := by
  cases data with
  | nil => simp [heapDequeue] at h
  | cons a t =>
    simp only [heapDequeue] at h
    split_ifs at h with hlen <;>
      simp only [Option.some.injEq, Prod.mk.injEq] at h <;> obtain ⟨rfl, rfl⟩ := h
    · exact ⟨List.mem_cons_self _ _,
        fun x hx => (List.dropLast_sublist _).mem hx⟩
    · refine ⟨List.mem_cons_self _ _, fun x hx => ?_⟩
      have hx' := mem_bubbleDownGo cmp _ _ _ x hx
      rcases List.mem_or_eq_of_mem_set hx' with hx'' | rfl
      · exact (List.dropLast_sublist _).mem hx''
      · rw [List.getLastD_eq_getLast?, List.getLast?_eq_getLast _ (by simp)]
        exact List.getLast_mem _

theorem heapQueue_mem [Inhabited τ] (cmp : τ → τ → Int) (data : List τ) (v x : τ)
    (h : x ∈ heapQueue cmp data v) : x = v ∨ x ∈ data := by
  have hx := mem_bubbleUpGo cmp _ _ _ x h
  rcases List.mem_append.mp hx with hx' | hx'
  · exact Or.inr hx'
  · exact Or.inl (List.mem_singleton.mp hx')

theorem pqOps_laws (maxAllowedMetricDelta : Nat) :
    SearchOpsLaws (pqOps maxAllowedMetricDelta) (fun s => s) := by
  constructor
  · intro frontier step frontier' h
    exact heapDequeue_mem pqComparator frontier step frontier' h
  · intro frontier step x h
    exact heapQueue_mem pqComparator frontier step x h
  · intro step state transfusion
    rfl
  · intro step state transfusion
    rfl

theorem solveUsingStack_sound (fuel : Nat) (puzzle : Puzzle) (moves : List (Nat × Nat))
    (h : solveUsingStack fuel puzzle = .solution moves) :
    ∃ p', Puzzle.replay puzzle moves = .ok p' ∧ p'.isSolved = true := by
  refine searchLoop_sound stackOps (fun s => s) stackOps_laws puzzle fuel
    [fingerprint puzzle] [⟨puzzle, []⟩] () moves ?_ h
  intro s hs
  rw [List.mem_singleton.mp hs]
  rfl

theorem solveUsingPriorityQueue_sound (fuel : Nat) (puzzle : Puzzle)
    (maxAllowedMetricDelta : Nat) (moves : List (Nat × Nat))
    (h : solveUsingPriorityQueue fuel puzzle maxAllowedMetricDelta = .solution moves) :
    ∃ p', Puzzle.replay puzzle moves = .ok p' ∧ p'.isSolved = true := by
  refine searchLoop_sound (pqOps maxAllowedMetricDelta) (fun s => s)
    (pqOps_laws maxAllowedMetricDelta) puzzle fuel [fingerprint puzzle]
    (heapify pqComparator [⟨puzzle, calculateSolutionMetric puzzle, []⟩]) [] moves ?_ h
  intro s hs
  have : s ∈ [(⟨puzzle, calculateSolutionMetric puzzle, []⟩ : PriorityQueueStep)] := hs
  rw [List.mem_singleton.mp this]
  rfl

theorem runMethod_sound (fuel : Nat) (solvingMethod : SolvingMethod) (puzzle : Puzzle)
    (moves : List (Nat × Nat)) (h : runMethod fuel solvingMethod puzzle = .solution moves) :
    ∃ p', Puzzle.replay puzzle moves = .ok p' ∧ p'.isSolved = true := by
  cases solvingMethod with
  | Fastest => exact solveUsingStack_sound fuel puzzle moves h
  | Balanced => exact solveUsingPriorityQueue_sound fuel puzzle 0 moves h
  | Shortest => exact solveUsingPriorityQueue_sound fuel puzzle 1 moves h

theorem solveLoop_sound (fuel : Nat) (layersMatrix : List (List Nat))
    (solvingMethod : SolvingMethod) (maxEmptyFlasksNumber : Nat) :
    ∀ (counter i : Nat) (moves : List (Nat × Nat)) (e : Nat),
      solveLoop fuel layersMatrix solvingMethod maxEmptyFlasksNumber counter i =
        .result (some moves) e →
      ∃ p₀ p', Puzzle.ofMatrix (layersMatrix ++ List.replicate e []) = .ok p₀ ∧
        Puzzle.replay p₀ moves = .ok p' ∧ p'.isSolved = true := by
  intro counter
  induction counter with
  | zero =>
    intro i moves e h
    simp only [solveLoop, SolveResult.result.injEq] at h
    exact absurd h.1 (by simp)
  | succ n ih =>
    intro i moves e h
    simp only [solveLoop] at h
    split_ifs at h with hgt
    · simp only [SolveResult.result.injEq] at h
      exact absurd h.1 (by simp)
    · rcases hof : Puzzle.ofMatrix (layersMatrix ++ List.replicate i []) with msg | puzzle <;>
        simp only [hof] at h
      · exact SolveResult.noConfusion h
      · rcases hrm : runMethod fuel solvingMethod puzzle with ts | - | msg | - <;>
          simp only [hrm] at h
        · simp only [SolveResult.result.injEq, Option.some.injEq] at h
          obtain ⟨rfl, rfl⟩ := h
          obtain ⟨p', hp'⟩ := runMethod_sound fuel solvingMethod puzzle ts hrm
          exact ⟨puzzle, p', hof, hp'⟩
        · exact ih (i + 1) moves e h
        · exact SolveResult.noConfusion h
        · exact SolveResult.noConfusion h

/-- Claim C1: whenever `solve` returns a move list together with an
empty-flask count `e`, replaying that move list in order via
`Puzzle.transfuse` against the extended layout (the original matrix followed
by `e` empty flasks) succeeds and produces a solved layout. -/
theorem solve_solution_is_valid (fuel : Nat) (layersMatrix : List (List Nat))
    (solvingMethod : SolvingMethod) (defaultEmptyFlasksNumber maxEmptyFlasksNumber : Nat)
    (moves : List (Nat × Nat)) (emptyFlasksNumber : Nat)
    (h : solve fuel layersMatrix solvingMethod defaultEmptyFlasksNumber maxEmptyFlasksNumber =
      .result (some moves) emptyFlasksNumber) :
    ∃ p₀ p', Puzzle.ofMatrix (layersMatrix ++ List.replicate emptyFlasksNumber []) = .ok p₀ ∧
      Puzzle.replay p₀ moves = .ok p' ∧ p'.isSolved = true :=
  solveLoop_sound fuel layersMatrix solvingMethod maxEmptyFlasksNumber _ _ moves
    emptyFlasksNumber h

/-- Witness for C1: `solve` on `[[0,0,0],[0]]` with the depth-first method
and bounds 0..0 returns the single move `(0, 1)` with 0 empty flasks, and
replaying it solves the layout. -/
theorem solve_solution_is_valid_witness :
    solve 3 [[0, 0, 0], [0]] SolvingMethod.Fastest 0 0 = .result (some [(0, 1)]) 0 ∧
    ∃ p₀ p', Puzzle.ofMatrix ([[0, 0, 0], [0]] ++ List.replicate 0 []) = .ok p₀ ∧
      Puzzle.replay p₀ [(0, 1)] = .ok p' ∧ p'.isSolved = true :=
  ⟨by decide,
   solve_solution_is_valid 3 [[0, 0, 0], [0]] SolvingMethod.Fastest 0 0 [(0, 1)] 0 (by decide)⟩

/-- Claim C7: when the selected inner search reports no solution (frontier
emptied without reaching a solved layout) at every auxiliary-empty-flask
count from the minimum to the maximum bound, `solve` terminates normally and
returns the absent solution together with the counter value that exceeded
the bound (`maxEmptyFlasksNumber + 1`), not an error. -/
theorem solve_reports_no_solution (fuel : Nat) (layersMatrix : List (List Nat))
    (solvingMethod : SolvingMethod) (defaultEmptyFlasksNumber maxEmptyFlasksNumber : Nat)
    (hdm : defaultEmptyFlasksNumber ≤ maxEmptyFlasksNumber)
    (hns : ∀ i, defaultEmptyFlasksNumber ≤ i → i ≤ maxEmptyFlasksNumber →
      ∃ p, Puzzle.ofMatrix (layersMatrix ++ List.replicate i []) = .ok p ∧
        runMethod fuel solvingMethod p = .noSolution) :
    solve fuel layersMatrix solvingMethod defaultEmptyFlasksNumber maxEmptyFlasksNumber =
      .result none (maxEmptyFlasksNumber + 1) := by
  suffices haux : ∀ (counter i : Nat), counter = maxEmptyFlasksNumber + 1 - i →
      defaultEmptyFlasksNumber ≤ i → i ≤ maxEmptyFlasksNumber + 1 →
      solveLoop fuel layersMatrix solvingMethod maxEmptyFlasksNumber counter i =
        .result none (maxEmptyFlasksNumber + 1) by
    exact haux _ _ rfl le_rfl (by omega)
  intro counter
  induction counter with
  | zero =>
    intro i hci h0 h1
    have hi : i = maxEmptyFlasksNumber + 1 := by omega
    subst hi
    simp [solveLoop]
  | succ n ih =>
    intro i hci h0 h1
    have hle : i ≤ maxEmptyFlasksNumber := by omega
    obtain ⟨p, hp, hrun⟩ := hns i h0 hle
    simp only [solveLoop]
    rw [if_neg (by omega)]
    simp only [hp, hrun]
    exact ih (i + 1) (by omega) (by omega) (by omega)

/-- Witness for C7: the single-flask layout `[[0,1]]` admits no transfusion
at all, so with bounds 0..0 the depth-first search empties its frontier and
`solve` reports the absent solution with counter value 1. -/
theorem solve_reports_no_solution_witness :
    solve 2 [[0, 1]] SolvingMethod.Fastest 0 0 = .result none 1 :=
  solve_reports_no_solution 2 [[0, 1]] SolvingMethod.Fastest 0 0 (le_refl 0)
    (fun i h0 h1 => by
      have hi : i = 0 := by omega
      subst hi
      exact ⟨⟨[⟨[0, 1]⟩]⟩, rfl, by decide⟩)

/-! ### Frame property of the search (no mutation of the input puzzle)

To state that a search run never mutates the `Puzzle` object passed to it,
the search is re-embedded with JavaScript's object heap made explicit: a
store (list) of `Puzzle` objects, with object references as indices.
`copy()` allocates a fresh entry; `transfuse` overwrites the entry it was
called on.  The frame theorem shows the store is only ever extended, never
overwritten at pre-existing indices. -/

/-- A stack step holding its puzzle by reference into the store. -/
structure StackStepRef where
  puzzleRef : Nat
  transfusions : List (Nat × Nat)
deriving DecidableEq, Repr, Inhabited

/-- A priority-queue step holding its puzzle by reference into the store. -/
structure PriorityQueueStepRef where
  puzzleRef : Nat
  metric : Nat
  transfusions : List (Nat × Nat)
deriving DecidableEq, Repr, Inhabited

/-- The frontier-discipline parameters of the store-based search; as in
`SearchOps` but steps refer to puzzles by store index, and the next-step
constructor receives both the fresh reference and the freshly computed
state (the priority discipline computes its metric from the latter). -/
structure SearchStoreOps (σ φ τ : Type) where
  getStep : σ → Option (τ × σ)
  addStep : σ → τ → σ
  puzzleRef : τ → Nat
  transfusions : τ → List (Nat × Nat)
  preliminaryFilter : φ → τ → Bool × φ
  makeNextStep : τ → Nat → Puzzle → Nat × Nat → τ

/-- Outcome of the store-based pair loops, carrying the updated store. -/
inductive PairsStoreOutcome (σ φ : Type) where
  | done (res : SearchResult) (store : List Puzzle)
  | next (store : List Puzzle) (visited : List String) (frontier : σ) (fs : φ)

/-- The store-based pair loops: identical to `processPairs`, except that
`step.puzzle.copy()` allocates a fresh store entry and the transfusion
overwrites that fresh entry in place. -/
def processPairsStore (ops : SearchStoreOps σ φ τ) (step : τ) :
    List (Nat × Nat) → List Puzzle → List String → σ → φ → PairsStoreOutcome σ φ
  | [], store, visited, frontier, fs => .next store visited frontier fs
  | (i, j) :: rest, store, visited, frontier, fs =>
    match (store.getD (ops.puzzleRef step) default).isTransfusionValid
        (Int.ofNat i) (Int.ofNat j) with
    | .error msg => .done (.thrown msg) store
    | .ok false => processPairsStore ops step rest store visited frontier fs
    | .ok true =>
      let newRef := store.length
      let store₁ := store ++ [Puzzle.copy (store.getD (ops.puzzleRef step) default)]
      match Puzzle.transfuse (store₁.getD newRef default) (Int.ofNat i) (Int.ofNat j) with
      | (.error msg, _) => .done (.thrown msg) store₁
      | (.ok _, state) =>
        let store₂ := store₁.set newRef state
        let nextFingerprint := fingerprint state
        if visited.contains nextFingerprint then
          processPairsStore ops step rest store₂ visited frontier fs
        else
          let visited' := nextFingerprint :: visited
          let nextStep := ops.makeNextStep step newRef (store₂.getD newRef default) (i, j)
          if (store₂.getD (ops.puzzleRef nextStep) default).isSolved then
            .done (.solution (ops.transfusions nextStep)) store₂
          else
            match ops.preliminaryFilter fs nextStep with
            | (true, fs') =>
              processPairsStore ops step rest store₂ visited'
                (ops.addStep frontier nextStep) fs'
            | (false, fs') => processPairsStore ops step rest store₂ visited' frontier fs'

/-- The store-based search loop, returning the result together with the
final store. -/
def searchLoopStore (ops : SearchStoreOps σ φ τ) :
    Nat → List Puzzle → List String → σ → φ → SearchResult × List Puzzle
  | 0, store, _, _, _ => (.fuelOut, store)
  | fuel + 1, store, visited, frontier, fs =>
    match ops.getStep frontier with
    | none => (.noSolution, store)
    | some (step, frontier') =>
      match ops.preliminaryFilter fs step with
      | (false, fs') => searchLoopStore ops fuel store visited frontier' fs'
      | (true, fs') =>
        match processPairsStore ops step
            (transfusionPairs (store.getD (ops.puzzleRef step) default).flasks.length)
            store visited frontier' fs' with
        | .done res store' => (res, store')
        | .next store' visited' frontier'' fs'' =>
          searchLoopStore ops fuel store' visited' frontier'' fs''

/-- The stack discipline over store references. -/
def stackStoreOps : SearchStoreOps (List StackStepRef) Unit StackStepRef where
  getStep := fun s =>
    match s with
    | [] => none
    | x :: xs => some (x, xs)
  addStep := fun s x => x :: s
  puzzleRef := StackStepRef.puzzleRef
  transfusions := StackStepRef.transfusions
  preliminaryFilter := fun fs _ => (true, fs)
  makeNextStep := fun step newRef _ transfusion =>
    ⟨newRef, step.transfusions ++ [transfusion]⟩

/-- The priority-queue comparator over store references. -/
def pqRefComparator (a b : PriorityQueueStepRef) : Int :=
  if a.transfusions.length != b.transfusions.length then
    (a.transfusions.length : Int) - (b.transfusions.length : Int)
  else
    (b.metric : Int) - (a.metric : Int)

/-- The priority-queue discipline over store references. -/
def pqStoreOps (maxAllowedMetricDelta : Nat) :
    SearchStoreOps (List PriorityQueueStepRef) (List (Nat × Nat)) PriorityQueueStepRef where
  getStep := heapDequeue pqRefComparator
  addStep := heapQueue pqRefComparator
  puzzleRef := PriorityQueueStepRef.puzzleRef
  transfusions := PriorityQueueStepRef.transfusions
  preliminaryFilter := fun metricMap step =>
    match metricMap.lookup step.transfusions.length with
    | some maxMetric =>
      if maxMetric > step.metric + maxAllowedMetricDelta then
        (false, metricMap)
      else if maxMetric < step.metric then
        (true, metricMapSet metricMap step.transfusions.length step.metric)
      else
        (true, metricMap)
    | none => (true, metricMapSet metricMap step.transfusions.length step.metric)
  makeNextStep := fun step newRef state transfusion =>
    ⟨newRef, calculateSolutionMetric state, step.transfusions ++ [transfusion]⟩

/-- `solveUsingStack` over the explicit store: the caller's puzzle object is
the store entry at `puzzleRef`. -/
def solveUsingStackStore (fuel : Nat) (store : List Puzzle) (puzzleRef : Nat) :
    SearchResult × List Puzzle :=
  searchLoopStore stackStoreOps fuel store
    [fingerprint (store.getD puzzleRef default)] [⟨puzzleRef, []⟩] ()

/-- `solveUsingPriorityQueue` over the explicit store. -/
def solveUsingPriorityQueueStore (fuel : Nat) (store : List Puzzle) (puzzleRef : Nat)
    (maxAllowedMetricDelta : Nat) : SearchResult × List Puzzle :=
  searchLoopStore (pqStoreOps maxAllowedMetricDelta) fuel store
    [fingerprint (store.getD puzzleRef default)]
    (heapify pqRefComparator
      [⟨puzzleRef, calculateSolutionMetric (store.getD puzzleRef default), []⟩]) []

theorem set_append_length (l : List α) (a b : α) : (l ++ [a]).set l.length b = l ++ [b] := by
  induction l with
  | nil => rfl
  | cons x xs ih => simp [ih]

theorem processPairsStore_extends (ops : SearchStoreOps σ φ τ) (step : τ) :
    ∀ (pairs : List (Nat × Nat)) (store : List Puzzle) (visited : List String)
      (frontier : σ) (fs : φ),
      (∀ res store',
        processPairsStore ops step pairs store visited frontier fs = .done res store' →
        ∃ ext, store' = store ++ ext) ∧
      (∀ store' visited' frontier' fs',
        processPairsStore ops step pairs store visited frontier fs =
          .next store' visited' frontier' fs' →
        ∃ ext, store' = store ++ ext) := by
  intro pairs
  induction pairs with
  | nil =>
    intro store visited frontier fs
    constructor
    · intro res store' h
      simp only [processPairsStore] at h
      exact PairsStoreOutcome.noConfusion h
    · intro store' visited' frontier' fs' h
      simp only [processPairsStore, PairsStoreOutcome.next.injEq] at h
      exact ⟨[], by rw [← h.1]; simp⟩
  | cons hd rest ih =>
    obtain ⟨i, j⟩ := hd
    intro store visited frontier fs
    cases hval : (store.getD (ops.puzzleRef step) default).isTransfusionValid
        (Int.ofNat i) (Int.ofNat j) with
    | error msg =>
      constructor
      · intro res store' h
        simp only [processPairsStore, hval, PairsStoreOutcome.done.injEq] at h
        exact ⟨[], by rw [← h.2]; simp⟩
      · intro store' visited' frontier' fs' h
        simp only [processPairsStore, hval] at h
        exact PairsStoreOutcome.noConfusion h
    | ok b =>
      cases b with
      | false =>
        have hrec := ih store visited frontier fs
        constructor
        · intro res store' h
          simp only [processPairsStore, hval] at h
          exact hrec.1 res store' h
        · intro store' visited' frontier' fs' h
          simp only [processPairsStore, hval] at h
          exact hrec.2 store' visited' frontier' fs' h
      | true =>
        rcases htr : Puzzle.transfuse
            ((store ++ [Puzzle.copy (store.getD (ops.puzzleRef step) default)]).getD
              store.length default)
            (Int.ofNat i) (Int.ofNat j) with ⟨r, state⟩
        cases r with
        | error msg =>
          constructor
          · intro res store' h
            simp only [processPairsStore, hval, htr, PairsStoreOutcome.done.injEq] at h
            exact ⟨_, by rw [← h.2]⟩
          · intro store' visited' frontier' fs' h
            simp only [processPairsStore, hval, htr] at h
            exact PairsStoreOutcome.noConfusion h
        | ok u =>
          have hset := set_append_length store
            (Puzzle.copy (store.getD (ops.puzzleRef step) default)) state
          cases hvis : visited.contains (fingerprint state) with
          | true =>
            have hrec := ih (store ++ [state]) visited frontier fs
            constructor
            · intro res store' h
              simp only [processPairsStore, hval, htr, hvis, hset, Bool.false_eq_true,
                Bool.true_eq_false, eq_self_iff_true, if_true, if_false] at h
              obtain ⟨ext, hext⟩ := hrec.1 res store' h
              exact ⟨state :: ext, by rw [hext]; simp⟩
            · intro store' visited' frontier' fs' h
              simp only [processPairsStore, hval, htr, hvis, hset, Bool.false_eq_true,
                Bool.true_eq_false, eq_self_iff_true, if_true, if_false] at h
              obtain ⟨ext, hext⟩ := hrec.2 store' visited' frontier' fs' h
              exact ⟨state :: ext, by rw [hext]; simp⟩
          | false =>
            cases hsol : ((store ++ [state]).getD
                (ops.puzzleRef (ops.makeNextStep step store.length
                  ((store ++ [state]).getD store.length default) (i, j))) default).isSolved with
            | true =>
              constructor
              · intro res store' h
                simp only [processPairsStore, hval, htr, hvis, hset, hsol, Bool.false_eq_true,
                  Bool.true_eq_false, eq_self_iff_true, if_true, if_false,
                  PairsStoreOutcome.done.injEq] at h
                exact ⟨[state], by rw [← h.2]⟩
              · intro store' visited' frontier' fs' h
                simp only [processPairsStore, hval, htr, hvis, hset, hsol, Bool.false_eq_true,
                  Bool.true_eq_false, eq_self_iff_true, if_true, if_false] at h
                exact PairsStoreOutcome.noConfusion h
            | false =>
              rcases hfil : ops.preliminaryFilter fs (ops.makeNextStep step store.length
                  ((store ++ [state]).getD store.length default) (i, j)) with ⟨keep, fs₂⟩
              cases keep with
              | true =>
                have hrec := ih (store ++ [state]) (fingerprint state :: visited)
                  (ops.addStep frontier (ops.makeNextStep step store.length
                    ((store ++ [state]).getD store.length default) (i, j))) fs₂
                constructor
                · intro res store' h
                  simp only [processPairsStore, hval, htr, hvis, hset, hsol, hfil,
                    Bool.false_eq_true, Bool.true_eq_false, eq_self_iff_true, if_true,
                    if_false] at h
                  obtain ⟨ext, hext⟩ := hrec.1 res store' h
                  exact ⟨state :: ext, by rw [hext]; simp⟩
                · intro store' visited' frontier' fs' h
                  simp only [processPairsStore, hval, htr, hvis, hset, hsol, hfil,
                    Bool.false_eq_true, Bool.true_eq_false, eq_self_iff_true, if_true,
                    if_false] at h
                  obtain ⟨ext, hext⟩ := hrec.2 store' visited' frontier' fs' h
                  exact ⟨state :: ext, by rw [hext]; simp⟩
              | false =>
                have hrec := ih (store ++ [state]) (fingerprint state :: visited) frontier fs₂
                constructor
                · intro res store' h
                  simp only [processPairsStore, hval, htr, hvis, hset, hsol, hfil,
                    Bool.false_eq_true, Bool.true_eq_false, eq_self_iff_true, if_true,
                    if_false] at h
                  obtain ⟨ext, hext⟩ := hrec.1 res store' h
                  exact ⟨state :: ext, by rw [hext]; simp⟩
                · intro store' visited' frontier' fs' h
                  simp only [processPairsStore, hval, htr, hvis, hset, hsol, hfil,
                    Bool.false_eq_true, Bool.true_eq_false, eq_self_iff_true, if_true,
                    if_false] at h
                  obtain ⟨ext, hext⟩ := hrec.2 store' visited' frontier' fs' h
                  exact ⟨state :: ext, by rw [hext]; simp⟩

theorem searchLoopStore_extends (ops : SearchStoreOps σ φ τ) :
    ∀ (fuel : Nat) (store : List Puzzle) (visited : List String) (frontier : σ) (fs : φ),
      ∃ ext, (searchLoopStore ops fuel store visited frontier fs).2 = store ++ ext := by
  intro fuel
  induction fuel with
  | zero =>
    intro store visited frontier fs
    exact ⟨[], by simp [searchLoopStore]⟩
  | succ fuel ih =>
    intro store visited frontier fs
    rcases hget : ops.getStep frontier with - | ⟨step, frontier'⟩
    · exact ⟨[], by simp [searchLoopStore, hget]⟩
    · rcases hfil : ops.preliminaryFilter fs step with ⟨keep, fs'⟩
      cases keep with
      | false =>
        obtain ⟨ext, hext⟩ := ih store visited frontier' fs'
        exact ⟨ext, by simp only [searchLoopStore, hget, hfil]; exact hext⟩
      | true =>
        rcases hpp : processPairsStore ops step
            (transfusionPairs (store.getD (ops.puzzleRef step) default).flasks.length)
            store visited frontier' fs' with ⟨res, store₂⟩ | ⟨store₂, visited₂, frontier₂, fs₂⟩
        · obtain ⟨ext, hext⟩ := (processPairsStore_extends ops step _ store visited
            frontier' fs').1 res store₂ hpp
          exact ⟨ext, by simp only [searchLoopStore, hget, hfil, hpp]; exact hext⟩
        · obtain ⟨ext₁, hext₁⟩ := (processPairsStore_extends ops step _ store visited
            frontier' fs').2 store₂ visited₂ frontier₂ fs₂ hpp
          obtain ⟨ext₂, hext₂⟩ := ih store₂ visited₂ frontier₂ fs₂
          refine ⟨ext₁ ++ ext₂, ?_⟩
          simp only [searchLoopStore, hget, hfil, hpp]
          rw [hext₂, hext₁, List.append_assoc]

/-- Claim C9: a whole search run never mutates the puzzle object passed to
it: in the store model, after `solveUsingStackStore` or
`solveUsingPriorityQueueStore` returns, the store entry holding the input
puzzle still has its original layers matrix, because every expansion
deep-copies the step's puzzle into a fresh store entry before transfusing. -/
theorem search_never_mutates_input (fuel : Nat) (store : List Puzzle) (puzzleRef : Nat)
    (maxAllowedMetricDelta : Nat) (href : puzzleRef < store.length) :
    ((solveUsingStackStore fuel store puzzleRef).2.getD puzzleRef default).layersMatrix =
      (store.getD puzzleRef default).layersMatrix ∧
    ((solveUsingPriorityQueueStore fuel store puzzleRef
        maxAllowedMetricDelta).2.getD puzzleRef default).layersMatrix =
      (store.getD puzzleRef default).layersMatrix := by
  constructor
  · obtain ⟨ext, hext⟩ := searchLoopStore_extends stackStoreOps fuel store
      [fingerprint (store.getD puzzleRef default)] [⟨puzzleRef, []⟩] ()
    rw [solveUsingStackStore, hext, List.getD_append _ _ _ _ href]
  · obtain ⟨ext, hext⟩ := searchLoopStore_extends (pqStoreOps maxAllowedMetricDelta) fuel store
      [fingerprint (store.getD puzzleRef default)]
      (heapify pqRefComparator
        [⟨puzzleRef, calculateSolutionMetric (store.getD puzzleRef default), []⟩]) []
    rw [solveUsingPriorityQueueStore, hext, List.getD_append _ _ _ _ href]

/-- Witness for C9: running both disciplines over a store holding the
single puzzle `[[0,0,0],[0]]` leaves that entry's layers matrix intact. -/
theorem search_never_mutates_input_witness :
    ((solveUsingStackStore 3 [⟨[⟨[0, 0, 0]⟩, ⟨[0]⟩]⟩] 0).2.getD 0 default).layersMatrix =
      ((([⟨[⟨[0, 0, 0]⟩, ⟨[0]⟩]⟩] : List Puzzle).getD 0 default)).layersMatrix ∧
    ((solveUsingPriorityQueueStore 3 [⟨[⟨[0, 0, 0]⟩, ⟨[0]⟩]⟩] 0 0).2.getD 0
        default).layersMatrix =
      ((([⟨[⟨[0, 0, 0]⟩, ⟨[0]⟩]⟩] : List Puzzle).getD 0 default)).layersMatrix :=
  search_never_mutates_input 3 [⟨[⟨[0, 0, 0]⟩, ⟨[0]⟩]⟩] 0 0 (by decide)
